import Mathlib

/-!
Shallow embedding of the SmartLensOCR region lifecycle: the `TextRegion`
data model (src/types.ts), the reorder/toggle operations of the main
component (src/App.tsx), and the detection / extraction adapters
(src/services/geminiService.ts).  JavaScript arrays become `List`, the
stable `Array.prototype.sort` with comparator `a.order - b.order` becomes
`List.insertionSort` with the reflexive key order (insertion sort with a
non-strict relation is stable, matching the ECMAScript stability
requirement), `findIndex` becomes `List.findIdx?` (JS returns -1 when
absent; here `none`), and the runtime `TypeError` raised by
`newArr[-1].order` is modelled by an `Option` result.  The remote model
calls are oracles passed in as parameters.
-/

namespace SmartLens

/-- Bounding box of a detected region, `BoundingBox` in src/types.ts.
Coordinates are numbers normalized to 0..1000; the claims only compare
them for equality, so they are embedded as integers. -/
structure BoundingBox where
  ymin : Int
  xmin : Int
  ymax : Int
  xmax : Int
deriving DecidableEq, Repr

/-- A detected text region, `TextRegion` in src/types.ts. -/
structure TextRegion where
  id : String
  box : BoundingBox
  order : Int
  description : String
  extractedText : Option String
  isActive : Bool
deriving DecidableEq, Repr

/-- The workflow enumeration `AppState` of src/types.ts. -/
inductive AppState where
  | IDLE
  | UPLOADING
  | DETECTING_REGIONS
  | INTERACTING
  | EXTRACTING
  | FINISHED
deriving DecidableEq, Repr

/-- The key order used by every `sort((a, b) => a.order - b.order)` in the
source: region `a` may come before region `b`. -/
def regLE (a b : TextRegion) : Prop := a.order ≤ b.order

/-- Strict version of `regLE`; a list that is `Pairwise regLT` has strictly
increasing (hence pairwise distinct) order values. -/
def regLT (a b : TextRegion) : Prop := a.order < b.order

instance : DecidableRel regLE := fun a b =>
  inferInstanceAs (Decidable (a.order ≤ b.order))

instance : DecidableRel regLT := fun a b =>
  inferInstanceAs (Decidable (a.order < b.order))

instance : IsTotal TextRegion regLE := ⟨fun a b => Int.le_total a.order b.order⟩

instance : IsTrans TextRegion regLE := ⟨fun _ _ _ h h' => le_trans h h'⟩

instance : IsTrans TextRegion regLT := ⟨fun _ _ _ h h' => lt_trans h h'⟩

instance : IsAntisymm TextRegion regLT :=
  ⟨fun a _ h h' => absurd (lt_trans h h') (lt_irrefl a.order)⟩

/-- The stable sort `arr.sort((a, b) => a.order - b.order)` applied
throughout src/App.tsx and src/services/geminiService.ts. -/
def jsSortByOrder (l : List TextRegion) : List TextRegion :=
  l.insertionSort regLE

/-- Overwrite the `order` field, as in `newArr[i].order = v`. -/
def setOrder (r : TextRegion) (v : Int) : TextRegion := { r with order := v }

/-- The three-line order swap of `moveRegion` in src/App.tsx: save
`newArr[i].order` in a temporary, copy `newArr[j].order` over position `i`,
then write the saved value at position `j`.  Out-of-range indices leave the
list unchanged (the in-range uses are guarded in `moveRegion`). -/
def swapOrders (l : List TextRegion) (i j : Nat) : List TextRegion :=
  match l[i]?, l[j]? with
  | some a, some b => (l.set i (setOrder a b.order)).set j (setOrder b a.order)
  | _, _ => l

/-- Direction argument of `moveRegion`. -/
inductive MoveDirection where
  | up
  | down
deriving DecidableEq, Repr

/-- The `moveRegion` callback of src/App.tsx (lines 57-73).  `findIndex`
yields -1 when `rid` is absent, modelled by the `none` branch of
`findIdx?`.  With an absent id and direction `down` on a non-empty list the
source evaluates `-1 < prev.length - 1` to true and then dereferences
`newArr[-1].order`, a `TypeError`; that crash is modelled as `none`.  Every
non-crashing path re-sorts the (possibly order-swapped) copy. -/
def moveRegion (l : List TextRegion) (rid : String) (dir : MoveDirection) :
    Option (List TextRegion) :=
  match l.findIdx? (fun r => r.id == rid) with
  | some i =>
    match dir with
    | MoveDirection.up =>
      if 0 < i then some (jsSortByOrder (swapOrders l (i - 1) i))
      else some (jsSortByOrder l)
    | MoveDirection.down =>
      if i + 1 < l.length then some (jsSortByOrder (swapOrders l i (i + 1)))
      else some (jsSortByOrder l)
  | none =>
    match dir with
    | MoveDirection.up => some (jsSortByOrder l)
    | MoveDirection.down =>
      if l.isEmpty then some (jsSortByOrder l) else none

/-- The activation toggle of src/App.tsx (region list sidebar):
`prev.map(r => r.id === id ? {...r, isActive: !r.isActive} : r)`. -/
def toggleActive (l : List TextRegion) (rid : String) : List TextRegion :=
  l.map (fun r => if r.id == rid then { r with isActive := !r.isActive } else r)

/-- A region with the `order` field blanked; two lists with equal images
under `eraseOrder` agree position by position on every field except
`order`. -/
def eraseOrder (r : TextRegion) : TextRegion := { r with order := 0 }

/-- One raw entry of the detection response, the element shape
`{description, ymin, xmin, ymax, xmax}` fixed by `responseSchema` in
src/services/geminiService.ts. -/
structure RawRegion where
  description : String
  ymin : Int
  xmin : Int
  ymax : Int
  xmax : Int
deriving DecidableEq, Repr

/-- The detection response after `JSON.parse`, as the source distinguishes
its cases.  `missing` models a falsy `response.text` (absent or the empty
string), for which the source substitutes the literal `"[]"`;
`wellFormed es` a text that parses to an array of entries of the expected
shape; `malformed` a text on which `JSON.parse` throws or whose parse
result is not an array (so the subsequent `.map` throws), which the `catch`
block logs and rethrows. -/
inductive DetectResponse where
  | missing
  | wellFormed (entries : List RawRegion)
  | malformed
deriving DecidableEq, Repr

/-- The arrow body of `rawRegions.map((r, index) => ...)` in
`detectRegions`: fresh id from the id source, `order = index + 1`,
`isActive = true`.  `genId i` stands for the value of the i-th evaluation
of `Math.random().toString(36).substr(2, 9)`, an arbitrary short base-36
string that nothing forces to be distinct between calls. -/
def rawToRegion (genId : Nat → String) (i : Nat) (r : RawRegion) : TextRegion :=
  { id := genId i
    box := { ymin := r.ymin, xmin := r.xmin, ymax := r.ymax, xmax := r.xmax }
    order := (i : Int) + 1
    description := r.description
    extractedText := none
    isActive := true }

/-- Index-aware map over the raw entries, mirroring the `(r, index)`
callback of `Array.prototype.map` starting at index `i`. -/
def mapRawFrom (genId : Nat → String) : Nat → List RawRegion → List TextRegion
  | _, [] => []
  | i, r :: rest => rawToRegion genId i r :: mapRawFrom genId (i + 1) rest

/-- `rawRegions.map((r, index) => ({...}))` of `detectRegions`. -/
def mapRawRegions (genId : Nat → String) (es : List RawRegion) : List TextRegion :=
  mapRawFrom genId 0 es

/-- `detectRegions` of src/services/geminiService.ts, from the point the
remote response is in hand: `const jsonStr = response.text || "[]"`, parse,
then map to `TextRegion`s.  A falsy text therefore takes the `"[]"` route
and succeeds with the image of the empty array; a malformed response makes
the function throw (`Except.error`). -/
def detectRegions (genId : Nat → String) : DetectResponse →
    Except Unit (List TextRegion)
  | DetectResponse.missing => Except.ok (mapRawRegions genId [])
  | DetectResponse.wellFormed es => Except.ok (mapRawRegions genId es)
  | DetectResponse.malformed => Except.error ()

/-- `const activeRegions = [...regions].filter(r => r.isActive).sort((a, b)
=> a.order - b.order)` of `extractTextFromRegions`. -/
def activeRegions (regions : List TextRegion) : List TextRegion :=
  jsSortByOrder (regions.filter (fun r => r.isActive))

/-- One line of the `regionsDescription` template string of
`extractTextFromRegions`. -/
def regionLine (r : TextRegion) : String :=
  "Region " ++ toString r.order ++ ": coordinates [" ++ toString r.box.ymin
    ++ ", " ++ toString r.box.xmin ++ ", " ++ toString r.box.ymax ++ ", "
    ++ toString r.box.xmax ++ "]"

/-- `activeRegions.map(...).join('\n')` of `extractTextFromRegions`. -/
def regionsDescription (l : List TextRegion) : String :=
  String.intercalate "\n" (l.map regionLine)

/-- `extractTextFromRegions` of src/services/geminiService.ts.  `remote`
is the oracle for the single `generateContent` call, taking the serialized
region description embedded in the prompt; the boolean records whether
that remote call was issued.  With no active region the source returns
`""` before ever building the request. -/
def extractTextFromRegions (remote : String → Except Unit String)
    (regions : List TextRegion) : Except Unit String × Bool :=
  let act := activeRegions regions
  if act.isEmpty then (Except.ok "", false)
  else (remote (regionsDescription act), true)

/-- The signed-in user record of src/App.tsx. -/
structure User where
  id : String
  email : String
  credits : Int
  isPro : Bool
deriving DecidableEq, Repr

/-- The React state of the `App` component that the credit/extraction
claims touch: each field is one `useState` hook of src/App.tsx. -/
structure AppModel where
  user : Option User
  showPricing : Bool
  appState : AppState
  image : Option String
  regions : List TextRegion
  finalText : String
  error : Option String
deriving DecidableEq, Repr

/-- `updateCredits` of src/App.tsx: add `amount` to the signed-in user's
balance (no-op when signed out) and dismiss the pricing modal. -/
def updateCredits (s : AppModel) (amount : Int) : AppModel :=
  match s.user with
  | none => s
  | some u =>
    { s with user := some { u with credits := u.credits + amount }
             showPricing := false }

/-- `handleExtractWithCredits` of src/App.tsx, with the awaited outcome of
`extractTextFromRegions` passed in as `outcome`.  Guard: signed-in with a
positive balance, otherwise show the pricing modal.  On success: debit one
credit, store the text, finish.  On failure: surface the error message and
return to `INTERACTING`, touching neither credits nor regions. -/
def handleExtractWithCredits (s : AppModel) (outcome : Except Unit String) :
    AppModel :=
  match s.user with
  | none => s
  | some u =>
    if u.credits ≤ 0 then { s with showPricing := true }
    else
      match outcome with
      | Except.ok t =>
        { updateCredits { s with appState := AppState.EXTRACTING } (-1) with
            finalText := t
            appState := AppState.FINISHED }
      | Except.error _ =>
        { s with
            appState := AppState.INTERACTING
            error := some "High-precision extraction failed. No credits were deducted." }

/-- Pointer-level key order: comparator of `sort((a, b) => a.order -
b.order)` when the array holds references into the object heap. -/
def ptrLE (objects : Nat → TextRegion) (p q : Nat) : Prop :=
  (objects p).order ≤ (objects q).order

instance (objects : Nat → TextRegion) : DecidableRel (ptrLE objects) :=
  fun p q => inferInstanceAs (Decidable ((objects p).order ≤ (objects q).order))

/-- Reference-level picture of the JavaScript store while
`extractTextFromRegions` runs: `arrays` maps an array reference to its
contents (a list of object references), `objects` maps an object reference
to the region record it holds. -/
structure JsStore where
  arrays : Nat → List Nat
  objects : Nat → TextRegion

/-- Reference-level model of `extractTextFromRegions`, mirroring each
array operation of the source on an explicit store.  `caller` is the
reference of the caller's `regions` array and `fresh` the next unused
array reference: `[...regions]` allocates a copy at `fresh` sharing the
same object references, `.filter` allocates its result at `fresh + 1`, and
`.sort` mutates that freshly filtered array in place.  No step writes an
object field and no step names the caller's array as the target of a
mutation.  Returns the call result together with the final store. -/
def extractTFRStore (store : JsStore) (caller fresh : Nat)
    (remote : String → Except Unit String) :
    (Except Unit String × Bool) × JsStore :=
  let copied := store.arrays caller
  let st1 : JsStore := { store with arrays := Function.update store.arrays fresh copied }
  let filtered := copied.filter (fun p => (st1.objects p).isActive)
  let st2 : JsStore := { st1 with arrays := Function.update st1.arrays (fresh + 1) filtered }
  let sorted := filtered.insertionSort (ptrLE st2.objects)
  let st3 : JsStore := { st2 with arrays := Function.update st2.arrays (fresh + 1) sorted }
  ((if sorted.isEmpty then (Except.ok "", false)
    else (remote (regionsDescription (sorted.map st3.objects)), true)), st3)

/-! Concrete fixtures used by witnesses and counterexamples. -/

/-- A sample bounding box. -/
def bx0 : BoundingBox := ⟨0, 0, 10, 10⟩

/-- Sample active region with order 1. -/
def regA1 : TextRegion := ⟨"a", bx0, 1, "first", none, true⟩

/-- Sample active region with order 2. -/
def regB2 : TextRegion := ⟨"b", bx0, 2, "second", none, true⟩

/-- Sample active region with order 3. -/
def regC3 : TextRegion := ⟨"c", bx0, 3, "third", none, true⟩

/-- Sample inactive region. -/
def inactD : TextRegion := ⟨"d", bx0, 4, "fourth", none, false⟩

/-- Active region at order 3 with id A (the claim C3 example). -/
def exA : TextRegion := ⟨"A", bx0, 3, "alpha", none, true⟩

/-- Active region at order 1 with id B (the claim C3 example). -/
def exB : TextRegion := ⟨"B", bx0, 1, "beta", none, true⟩

/-- Active region at order 2 with id C (the claim C3 example). -/
def exC : TextRegion := ⟨"C", bx0, 2, "gamma", none, true⟩

/-- Inactive region D (the claim C3 example). -/
def exD : TextRegion := ⟨"D", bx0, 4, "delta", none, false⟩

/-- Region with a tied order value, for the reorder counterexample. -/
def tieA : TextRegion := ⟨"a", bx0, 1, "first", none, true⟩

/-- Second region carrying the same order value as `tieA`. -/
def tieB : TextRegion := ⟨"b", bx0, 1, "second", none, true⟩

/-- Region after the tie, order 2. -/
def tieC : TextRegion := ⟨"c", bx0, 2, "third", none, true⟩

/-- A raw detection entry. -/
def rawE1 : RawRegion := ⟨"headline", 0, 0, 100, 1000⟩

/-- Another raw detection entry. -/
def rawE2 : RawRegion := ⟨"body", 150, 0, 900, 1000⟩

/-- A signed-in sample user with three credits. -/
def wUser : User := ⟨"usr_1", "client@company.com", 3, false⟩

/-- A sample application state ready to extract. -/
def wModel : AppModel :=
  ⟨some wUser, false, AppState.INTERACTING, some "img", [regA1, regB2], "", none⟩

/-! Helper lemmas about the embedded operations. -/

/-- Length of the indexed raw-entry map. -/
theorem mapRawFrom_length (genId : Nat → String) :
    ∀ (i : Nat) (es : List RawRegion), (mapRawFrom genId i es).length = es.length
  | _, [] => rfl
  | i, _ :: rest => congrArg Nat.succ (mapRawFrom_length genId (i + 1) rest)

/-- Orders produced by the indexed raw-entry map are the successive
integers starting at `i + 1`. -/
theorem mapRawFrom_map_order (genId : Nat → String) :
    ∀ (i : Nat) (es : List RawRegion),
      (mapRawFrom genId i es).map TextRegion.order
        = (List.range' i es.length).map (fun n => (n : Int) + 1) := by
  intro i es
  induction es generalizing i with
  | nil => rfl
  | cons r rest ih =>
    simp only [mapRawFrom, List.map_cons, List.length_cons, List.range'_succ, ih]
    rfl

/-- Ids produced by the indexed raw-entry map are the successive outputs
of the id source starting at index `i`. -/
theorem mapRawFrom_map_id (genId : Nat → String) :
    ∀ (i : Nat) (es : List RawRegion),
      (mapRawFrom genId i es).map TextRegion.id = (List.range' i es.length).map genId := by
  intro i es
  induction es generalizing i with
  | nil => rfl
  | cons r rest ih =>
    simp only [mapRawFrom, List.map_cons, List.length_cons, List.range'_succ, ih]
    rfl

/-- Every region produced by the indexed raw-entry map is active. -/
theorem mapRawFrom_isActive (genId : Nat → String) :
    ∀ (i : Nat) (es : List RawRegion), ∀ r ∈ mapRawFrom genId i es, r.isActive = true := by
  intro i es
  induction es generalizing i with
  | nil => intro r hr; cases hr
  | cons e rest ih =>
    intro r hr
    rcases List.mem_cons.mp hr with hr | hr
    · subst hr; rfl
    · exact ih (i + 1) r hr

/-! Claim theorems. -/

/-- Claim C2 (amended): for a well-formed response of N entries,
`detectRegions` succeeds with exactly N regions whose order values are
`index + 1` in received order (hence exactly the set 1..N) and which are
all active; the ids are the first N outputs of the id source and are
pairwise distinct provided those outputs are distinct — the unconditional
distinctness the claim states does not hold, see the counterexample. -/
theorem detectRegions_wellFormed_spec (genId : Nat → String) (es : List RawRegion)
    (hg : ((List.range es.length).map genId).Nodup) :
    detectRegions genId (DetectResponse.wellFormed es)
        = Except.ok (mapRawRegions genId es) ∧
    (mapRawRegions genId es).length = es.length ∧
    (mapRawRegions genId es).map TextRegion.order
        = (List.range es.length).map (fun n => (n : Int) + 1) ∧
    (mapRawRegions genId es).map TextRegion.id = (List.range es.length).map genId ∧
    ((mapRawRegions genId es).map TextRegion.id).Nodup ∧
    ∀ r ∈ mapRawRegions genId es, r.isActive = true := by
  have hid : (mapRawRegions genId es).map TextRegion.id
      = (List.range es.length).map genId := by
    rw [List.range_eq_range']
    exact mapRawFrom_map_id genId 0 es
  refine ⟨rfl, mapRawFrom_length genId 0 es, ?_, hid, ?_, mapRawFrom_isActive genId 0 es⟩
  · rw [List.range_eq_range']
    exact mapRawFrom_map_order genId 0 es
  · rw [hid]
    exact hg

/-- Claim C2 counterexample: with an id source that repeats (as
`Math.random().toString(36).substr(2, 9)` may), a two-entry well-formed
response yields two regions with the same id, so the produced ids are not
pairwise distinct. -/
theorem detectRegions_id_collision :
    detectRegions (fun _ => "q1w2e3r4t") (DetectResponse.wellFormed [rawE1, rawE2])
        = Except.ok (mapRawRegions (fun _ => "q1w2e3r4t") [rawE1, rawE2]) ∧
    ¬ ((mapRawRegions (fun _ => "q1w2e3r4t") [rawE1, rawE2]).map TextRegion.id).Nodup :=
  ⟨rfl, by decide⟩

/-- Claim C5 (amended): a malformed response makes `detectRegions` throw,
but an empty (falsy) response text is replaced by the literal `"[]"` and
the call then succeeds with the empty region list — it does not produce a
`DetectionError` as the claim states. -/
theorem detectRegions_error_behavior (genId : Nat → String) :
    detectRegions genId DetectResponse.malformed = Except.error () ∧
    detectRegions genId DetectResponse.missing = Except.ok [] :=
  ⟨rfl, rfl⟩

/-- Claim C5 counterexample: an empty remote response text succeeds with
the default empty region list instead of resulting in a detection
error. -/
theorem detectRegions_missing_returns_default :
    detectRegions (fun _ => "q1w2e3r4t") DetectResponse.missing
        = Except.ok ([] : List TextRegion) :=
  rfl

/-- Claim C8: toggling activation twice with the same id restores the
original list, and a single toggle never changes any region's `order`,
`id`, `box`, `description` or `extractedText`. -/
theorem toggleActive_double_restores (l : List TextRegion) (rid : String) :
    toggleActive (toggleActive l rid) rid = l ∧
    (toggleActive l rid).map TextRegion.order = l.map TextRegion.order ∧
    (toggleActive l rid).map TextRegion.id = l.map TextRegion.id ∧
    (toggleActive l rid).map TextRegion.box = l.map TextRegion.box ∧
    (toggleActive l rid).map TextRegion.description = l.map TextRegion.description ∧
    (toggleActive l rid).map TextRegion.extractedText
        = l.map TextRegion.extractedText := by
  unfold toggleActive
  refine ⟨?_, ?_, ?_, ?_, ?_, ?_⟩ <;> rw [List.map_map]
  · refine (List.map_congr_left ?_).trans (List.map_id l)
    intro r _
    by_cases h : r.id = rid
    · subst h
      simp [Bool.not_not]
    · simp [h]
  all_goals
    refine List.map_congr_left ?_
    intro r _
    by_cases h : r.id = rid
    · subst h
      simp
    · simp [h]

/-- Claim C9: when no region is active, extraction returns the empty
string and the remote OCR oracle is never invoked. -/
theorem extract_skips_remote_when_inactive (remote : String → Except Unit String)
    (regions : List TextRegion) (h : ∀ r ∈ regions, r.isActive = false) :
    extractTextFromRegions remote regions = (Except.ok "", false) := by
  have hf : regions.filter (fun r => r.isActive) = [] :=
    List.filter_eq_nil_iff.mpr (by simpa using h)
  unfold extractTextFromRegions activeRegions jsSortByOrder
  rw [hf]
  rfl

/-- Witness for C9 at a concrete fully inactive list. -/
theorem extract_skips_remote_when_inactive_witness :
    extractTextFromRegions (fun _ => Except.ok "ocr") [inactD, exD]
        = (Except.ok "", false) :=
  extract_skips_remote_when_inactive (fun _ => Except.ok "ocr") [inactD, exD]
    (by decide)

/-- Claim C6: with a signed-in user holding a positive balance, a failed
remote extraction leaves the credit balance and the region list untouched
and returns the workflow to `INTERACTING`; only a successful extraction
debits, and it debits exactly one credit. -/
theorem handleExtract_failure_no_debit (s : AppModel) (u : User)
    (hu : s.user = some u) (hc : 0 < u.credits) :
    (handleExtractWithCredits s (Except.error ())).appState = AppState.INTERACTING ∧
    (handleExtractWithCredits s (Except.error ())).regions = s.regions ∧
    (handleExtractWithCredits s (Except.error ())).user = some u ∧
    ∀ t, (handleExtractWithCredits s (Except.ok t)).user
        = some { u with credits := u.credits - 1 } := by
  have hle : ¬ u.credits ≤ 0 := not_le.mpr hc
  refine ⟨?_, ?_, ?_, ?_⟩
  · simp [handleExtractWithCredits, hu, hle]
  · simp [handleExtractWithCredits, hu, hle]
  · simp [handleExtractWithCredits, hu, hle]
  · intro t
    simp [handleExtractWithCredits, updateCredits, hu, hle, sub_eq_add_neg]

/-- Witness for C6 at a concrete signed-in state with three credits. -/
theorem handleExtract_failure_no_debit_witness :
    (handleExtractWithCredits wModel (Except.error ())).appState
        = AppState.INTERACTING ∧
    (handleExtractWithCredits wModel (Except.error ())).regions = wModel.regions ∧
    (handleExtractWithCredits wModel (Except.error ())).user = some wUser ∧
    ∀ t, (handleExtractWithCredits wModel (Except.ok t)).user
        = some { wUser with credits := wUser.credits - 1 } :=
  handleExtract_failure_no_debit wModel wUser rfl (by decide)

/-- Witness for C2 at a two-entry response with distinct generated ids. -/
theorem detectRegions_wellFormed_spec_witness :
    detectRegions (fun n => toString n) (DetectResponse.wellFormed [rawE1, rawE2])
        = Except.ok (mapRawRegions (fun n => toString n) [rawE1, rawE2]) ∧
    (mapRawRegions (fun n => toString n) [rawE1, rawE2]).length
        = ([rawE1, rawE2] : List RawRegion).length ∧
    (mapRawRegions (fun n => toString n) [rawE1, rawE2]).map TextRegion.order
        = (List.range ([rawE1, rawE2] : List RawRegion).length).map
            (fun n => (n : Int) + 1) ∧
    (mapRawRegions (fun n => toString n) [rawE1, rawE2]).map TextRegion.id
        = (List.range ([rawE1, rawE2] : List RawRegion).length).map
            (fun n => toString n) ∧
    ((mapRawRegions (fun n => toString n) [rawE1, rawE2]).map TextRegion.id).Nodup ∧
    ∀ r ∈ mapRawRegions (fun n => toString n) [rawE1, rawE2], r.isActive = true :=
  detectRegions_wellFormed_spec (fun n => toString n) [rawE1, rawE2] (by decide)

/-- Claim C4 counterexample: with an id absent from a non-empty list and
direction `down`, the source evaluates `-1 < prev.length - 1` to true and
dereferences `newArr[-1].order`, raising a `TypeError` (modelled `none`)
instead of returning the list unchanged. -/
theorem moveRegion_absent_down_crashes :
    moveRegion [regA1] "zzz" MoveDirection.down = none := by decide

/-- Claim C7 counterexample: on a list with a tied order value (orders 1,
1, 2 for ids a, b, c), moving b up swaps two equal order values (a no-op)
but moving b down then swaps b with c, so up followed by down does not
restore the original list even though b was not first. -/
theorem moveRegion_up_down_not_inverse :
    moveRegion [tieA, tieB, tieC] "b" MoveDirection.up = some [tieA, tieB, tieC] ∧
    moveRegion [tieA, tieB, tieC] "b" MoveDirection.down
        = some [tieA, { tieC with order := 1 }, { tieB with order := 2 }] ∧
    ([tieA, { tieC with order := 1 }, { tieB with order := 2 }] : List TextRegion)
        ≠ [tieA, tieB, tieC] :=
  ⟨by decide, by decide, by decide⟩

/-- Claim C3: the sequence serialized into the extraction request is
exactly the active regions sorted by `order` ascending, with ties broken
stably by original filtered position, every inactive region excluded; the
remote call receives exactly that sequence, and on the concrete example
with active regions at orders 3, 1, 2 (ids A, B, C) plus inactive D the
sequence is B, C, A. -/
theorem extraction_sequence_spec (l : List TextRegion) :
    (activeRegions l).Perm (l.filter (fun r => r.isActive)) ∧
    List.Sorted regLE (activeRegions l) ∧
    (∀ r ∈ activeRegions l, r.isActive = true) ∧
    (∀ a b : TextRegion, a.order ≤ b.order →
        List.Sublist [a, b] (l.filter (fun r => r.isActive)) →
        List.Sublist [a, b] (activeRegions l)) ∧
    (∀ remote : String → Except Unit String, (activeRegions l).isEmpty = false →
        extractTextFromRegions remote l
          = (remote (regionsDescription (activeRegions l)), true)) ∧
    activeRegions [exA, exB, exC, exD] = [exB, exC, exA] := by
  refine ⟨List.perm_insertionSort regLE _, List.sorted_insertionSort regLE _,
    ?_, ?_, ?_, by decide⟩
  · intro r hr
    have hm : r ∈ l.filter (fun r => r.isActive) :=
      (List.mem_insertionSort regLE).mp hr
    exact (List.mem_filter.mp hm).2
  · intro a b hab hsub
    exact List.pair_sublist_insertionSort hab hsub
  · intro remote hne
    simp only [extractTextFromRegions]
    rw [hne]
    rfl

/-- Claim C10: the reference-level run of `extractTextFromRegions` never
writes a region object and never mutates the caller's array: the only
in-place sort targets the freshly allocated filter result.  After the call
the caller's array holds the same object references in the same positions
and every object holds the same field values. -/
theorem extract_preserves_caller_store (store : JsStore) (caller fresh : Nat)
    (remote : String → Except Unit String)
    (h1 : caller ≠ fresh) (h2 : caller ≠ fresh + 1) :
    ((extractTFRStore store caller fresh remote).2).objects = store.objects ∧
    ((extractTFRStore store caller fresh remote).2).arrays caller
        = store.arrays caller ∧
    (((extractTFRStore store caller fresh remote).2).arrays caller).map
        ((extractTFRStore store caller fresh remote).2).objects
      = (store.arrays caller).map store.objects := by
  have harr : ((extractTFRStore store caller fresh remote).2).arrays caller
      = store.arrays caller := by
    simp only [extractTFRStore]
    simp only [Function.update_noteq h2, Function.update_noteq h1]
  have hobj : ((extractTFRStore store caller fresh remote).2).objects
      = store.objects := rfl
  exact ⟨hobj, harr, by rw [harr, hobj]⟩

/-- Witness for C10 at a concrete store. -/
theorem extract_preserves_caller_store_witness :
    ((extractTFRStore ⟨fun _ => [0, 1], fun _ => regA1⟩ 0 1
        (fun _ => Except.ok "ocr")).2).objects = (fun _ => regA1) ∧
    ((extractTFRStore ⟨fun _ => [0, 1], fun _ => regA1⟩ 0 1
        (fun _ => Except.ok "ocr")).2).arrays 0 = [0, 1] ∧
    (((extractTFRStore ⟨fun _ => [0, 1], fun _ => regA1⟩ 0 1
        (fun _ => Except.ok "ocr")).2).arrays 0).map
        ((extractTFRStore ⟨fun _ => [0, 1], fun _ => regA1⟩ 0 1
            (fun _ => Except.ok "ocr")).2).objects
      = [0, 1].map (fun _ => regA1) :=
  extract_preserves_caller_store ⟨fun _ => [0, 1], fun _ => regA1⟩ 0 1
    (fun _ => Except.ok "ocr") (by decide) (by decide)

/-! Helper lemmas for the reorder claims. -/

/-- Setting a position to the value it already holds is the identity. -/
theorem set_of_getElem_eq {α : Type} :
    ∀ (m : List α) (i : Nat) (v : α), m[i]? = some v → m.set i v = m
  | [], _, _, h => by simp at h
  | c :: m, 0, v, h => by
    obtain rfl : c = v := by simpa using h
    rfl
  | c :: m, i + 1, v, h =>
    congrArg (c :: ·) (set_of_getElem_eq m i v (by simpa using h))

/-- Exchanging two adjacent entries of a list yields a permutation. -/
theorem set_swap_adj_perm {α : Type} :
    ∀ (m : List α) (a : Nat) (x y : α), m[a]? = some x → m[a + 1]? = some y →
      ((m.set a y).set (a + 1) x).Perm m := by
  intro m
  induction m with
  | nil => intro a x y hx _; simp at hx
  | cons c m ih =>
    intro a x y hx hy
    cases a with
    | zero =>
      obtain rfl : c = x := by simpa using hx
      cases m with
      | nil => simp at hy
      | cons d t =>
        obtain rfl : d = y := by simpa using hy
        simpa using List.Perm.swap c d t
    | succ k =>
      have h := ih k x y (by simpa using hx) (by simpa using hy)
      simpa using h.cons c

/-- The swap written out when both positions are in range. -/
theorem swapOrders_eq {l : List TextRegion} {i j : Nat} {a b : TextRegion}
    (hi : l[i]? = some a) (hj : l[j]? = some b) :
    swapOrders l i j = (l.set i (setOrder a b.order)).set j (setOrder b a.order) := by
  unfold swapOrders
  rw [hi, hj]

/-- A swap of order values changes no field that ignores `order`. -/
theorem swapOrders_map_invariant {β : Type} (f : TextRegion → β)
    (hf : ∀ r v, f (setOrder r v) = f r) (l : List TextRegion) (i j : Nat) :
    (swapOrders l i j).map f = l.map f := by
  cases hi : l[i]? with
  | none =>
    unfold swapOrders
    rw [hi]
  | some a =>
    cases hj : l[j]? with
    | none =>
      unfold swapOrders
      rw [hi, hj]
    | some b =>
      rw [swapOrders_eq hi hj, List.map_set, List.map_set, hf, hf]
      have hfi : (l.map f)[i]? = some (f a) := by
        rw [List.getElem?_map, hi]
        rfl
      have hfj : (l.map f)[j]? = some (f b) := by
        rw [List.getElem?_map, hj]
        rfl
      rw [set_of_getElem_eq _ i (f a) hfi, set_of_getElem_eq _ j (f b) hfj]

/-- `swapOrders` commutes with cons when both indices step down. -/
theorem swapOrders_cons (a : TextRegion) (l : List TextRegion) (i j : Nat) :
    swapOrders (a :: l) (i + 1) (j + 1) = a :: swapOrders l i j := by
  cases hi : l[i]? with
  | none =>
    cases hj : l[j]? with
    | none =>
      unfold swapOrders
      rw [List.getElem?_cons_succ, List.getElem?_cons_succ, hi, hj]
    | some b =>
      unfold swapOrders
      rw [List.getElem?_cons_succ, List.getElem?_cons_succ, hi, hj]
  | some a' =>
    cases hj : l[j]? with
    | none =>
      unfold swapOrders
      rw [List.getElem?_cons_succ, List.getElem?_cons_succ, hi, hj]
    | some b =>
      unfold swapOrders
      rw [List.getElem?_cons_succ, List.getElem?_cons_succ, hi, hj]
      rfl

/-- The element right after a prefix of known length. -/
theorem getElem?_append_cons_self :
    ∀ (A : List TextRegion) (y : TextRegion) (B : List TextRegion),
      (A ++ y :: B)[A.length]? = some y
  | [], _, _ => by simp
  | _ :: A, y, B => by simpa using getElem?_append_cons_self A y B

/-- The second element after a prefix of known length. -/
theorem getElem?_append_cons_succ :
    ∀ (A : List TextRegion) (x y : TextRegion) (B : List TextRegion),
      (A ++ x :: y :: B)[A.length + 1]? = some y
  | [], _, _, _ => by simp
  | _ :: A, x, y, B => by simpa using getElem?_append_cons_succ A x y B

/-- The adjacent order swap on an explicit decomposition. -/
theorem swapOrders_append :
    ∀ (A : List TextRegion) (x y : TextRegion) (B : List TextRegion),
      swapOrders (A ++ x :: y :: B) A.length (A.length + 1)
        = A ++ setOrder x y.order :: setOrder y x.order :: B
  | [], x, y, B => by
    show swapOrders (x :: y :: B) 0 1 = [] ++ setOrder x y.order :: setOrder y x.order :: B
    rw [swapOrders_eq (i := 0) (j := 1) (a := x) (b := y) (by simp) (by simp)]
    rfl
  | a :: A, x, y, B => by
    rw [List.cons_append, List.length_cons, swapOrders_cons,
        swapOrders_append A x y B, List.cons_append]

/-- Decomposition of a list at the first index satisfying the search
predicate of `findIndex`. -/
theorem findIdx?_split {p : TextRegion → Bool} :
    ∀ {l : List TextRegion} {i : Nat}, l.findIdx? p = some i →
      ∃ A y B, l = A ++ y :: B ∧ A.length = i ∧
        (∀ a ∈ A, p a = false) ∧ p y = true := by
  intro l
  induction l with
  | nil => intro i h; simp at h
  | cons x xs ih =>
    intro i h
    rw [List.findIdx?_cons] at h
    by_cases hx : p x = true
    · rw [if_pos hx] at h
      obtain rfl : (0 : Nat) = i := Option.some.inj h
      exact ⟨[], x, xs, rfl, rfl, fun a ha => absurd ha (List.not_mem_nil a), hx⟩
    · rw [if_neg hx, List.findIdx?_succ] at h
      obtain ⟨i', hi', rfl⟩ := Option.map_eq_some'.mp h
      obtain ⟨A, y, B, rfl, hlen, hA, hy⟩ := ih hi'
      refine ⟨x :: A, y, B, rfl, by simp [hlen], ?_, hy⟩
      intro a ha
      rcases List.mem_cons.mp ha with rfl | ha
      · cases hpa : p a with
        | false => rfl
        | true => exact absurd hpa hx
      · exact hA a ha

/-- `findIndex` on a list whose prefix rejects the predicate. -/
theorem findIdx?_prepend {p : TextRegion → Bool} :
    ∀ (A : List TextRegion) {y : TextRegion} (B : List TextRegion),
      (∀ a ∈ A, p a = false) → p y = true →
      (A ++ y :: B).findIdx? p = some A.length := by
  intro A
  induction A with
  | nil =>
    intro y B _ hy
    rw [List.nil_append, List.findIdx?_cons, if_pos hy]
    rfl
  | cons a A ih =>
    intro y B hA hy
    have hpa : ¬ p a = true := by
      rw [hA a (List.mem_cons_self a A)]
      exact Bool.false_ne_true
    rw [List.cons_append, List.findIdx?_cons, if_neg hpa, List.findIdx?_succ,
        ih B (fun b hb => hA b (List.mem_cons_of_mem a hb)) hy]
    rfl

/-- The JavaScript sort pinned down: a stable sort of `l` equals any
permutation of `l` that is strictly sorted by order. -/
theorem jsSort_eq_of_perm {l m : List TextRegion} (hp : l.Perm m)
    (hm : m.Pairwise regLT) : jsSortByOrder l = m := by
  have hperm : (jsSortByOrder l).Perm m := (List.perm_insertionSort regLE l).trans hp
  have hsle : (jsSortByOrder l).Pairwise regLE := List.sorted_insertionSort regLE l
  have hmnd : (m.map TextRegion.order).Nodup := by
    have h1 : (m.map TextRegion.order).Pairwise (· < ·) := List.pairwise_map.mpr hm
    exact h1.imp ne_of_lt
  have hlnd : ((jsSortByOrder l).map TextRegion.order).Nodup :=
    ((hperm.map TextRegion.order).nodup_iff).mpr hmnd
  have hne : (jsSortByOrder l).Pairwise (fun a b => a.order ≠ b.order) :=
    List.pairwise_map.mp hlnd
  have hslt : (jsSortByOrder l).Pairwise regLT :=
    (hsle.and hne).imp (fun h => lt_of_le_of_ne h.1 h.2)
  exact List.eq_of_perm_of_sorted hperm hslt hm

/-- Projection of an order overwrite. -/
theorem setOrder_order (r : TextRegion) (v : Int) : (setOrder r v).order = v := rfl

/-- Overwriting the order twice keeps only the last value. -/
theorem setOrder_setOrder (r : TextRegion) (v w : Int) :
    setOrder (setOrder r v) w = setOrder r w := rfl

/-- Overwriting the order with its current value is the identity. -/
theorem setOrder_self (r : TextRegion) : setOrder r r.order = r := rfl

/-- Claim C1: a successful move (id found, boundary respected) exchanges
the order values of one adjacent pair of positions and re-sorts: the
result is a permutation of the pairwise order swap, and that swap touches
no field other than the two exchanged order values; consequently the
multiset of order values and the multiset (hence set) of ids are
preserved and the list is never renumbered. -/
theorem moveRegion_success_swaps (l : List TextRegion) (rid : String)
    (dir : MoveDirection) (i : Nat)
    (hfind : l.findIdx? (fun r => r.id == rid) = some i)
    (hok : (dir = MoveDirection.up ∧ 0 < i) ∨
        (dir = MoveDirection.down ∧ i + 1 < l.length)) :
    ∃ R a, moveRegion l rid dir = some R ∧ a + 1 < l.length ∧
      (i = a ∨ i = a + 1) ∧
      R.Perm (swapOrders l a (a + 1)) ∧
      (swapOrders l a (a + 1)).map eraseOrder = l.map eraseOrder ∧
      (R.map TextRegion.order).Perm (l.map TextRegion.order) ∧
      (R.map TextRegion.id).Perm (l.map TextRegion.id) := by
  have hibound : i < l.length := by
    obtain ⟨h, -⟩ := List.findIdx?_eq_some_iff_getElem.mp hfind
    exact h
  have main : ∀ a : Nat, a + 1 < l.length →
      (jsSortByOrder (swapOrders l a (a + 1))).Perm (swapOrders l a (a + 1)) ∧
      (swapOrders l a (a + 1)).map eraseOrder = l.map eraseOrder ∧
      ((jsSortByOrder (swapOrders l a (a + 1))).map TextRegion.order).Perm
          (l.map TextRegion.order) ∧
      ((jsSortByOrder (swapOrders l a (a + 1))).map TextRegion.id).Perm
          (l.map TextRegion.id) := by
    intro a ha
    have ha0 : a < l.length := Nat.lt_of_succ_lt ha
    have hx : l[a]? = some (l[a]) := List.getElem?_eq_getElem ha0
    have hy : l[a + 1]? = some (l[a + 1]) := List.getElem?_eq_getElem ha
    have hperm : (jsSortByOrder (swapOrders l a (a + 1))).Perm
        (swapOrders l a (a + 1)) := List.perm_insertionSort regLE _
    have herase : (swapOrders l a (a + 1)).map eraseOrder = l.map eraseOrder :=
      swapOrders_map_invariant eraseOrder (fun _ _ => rfl) l a (a + 1)
    have hid : (swapOrders l a (a + 1)).map TextRegion.id = l.map TextRegion.id :=
      swapOrders_map_invariant TextRegion.id (fun _ _ => rfl) l a (a + 1)
    have hordermap : (swapOrders l a (a + 1)).map TextRegion.order
        = ((l.map TextRegion.order).set a ((l[a + 1]).order)).set (a + 1)
            ((l[a]).order) := by
      rw [swapOrders_eq hx hy, List.map_set, List.map_set, setOrder_order,
        setOrder_order]
    have hoa : (l.map TextRegion.order)[a]? = some ((l[a]).order) := by
      rw [List.getElem?_map, hx]
      rfl
    have hob : (l.map TextRegion.order)[a + 1]? = some ((l[a + 1]).order) := by
      rw [List.getElem?_map, hy]
      rfl
    have hoperm : ((swapOrders l a (a + 1)).map TextRegion.order).Perm
        (l.map TextRegion.order) := by
      rw [hordermap]
      exact set_swap_adj_perm _ a _ _ hoa hob
    refine ⟨hperm, herase, (hperm.map TextRegion.order).trans hoperm, ?_⟩
    have h2 := hperm.map TextRegion.id
    rw [hid] at h2
    exact h2
  rcases hok with ⟨rfl, hi⟩ | ⟨rfl, hd⟩
  · obtain ⟨k, rfl⟩ : ∃ k, i = k + 1 := ⟨i - 1, (Nat.succ_pred_eq_of_pos hi).symm⟩
    have hmv : moveRegion l rid MoveDirection.up
        = some (jsSortByOrder (swapOrders l k (k + 1))) := by
      simp only [moveRegion, hfind]
      rw [if_pos (Nat.succ_pos k)]
      rfl
    obtain ⟨h1, h2, h3, h4⟩ := main k hibound
    exact ⟨_, k, hmv, hibound, Or.inr rfl, h1, h2, h3, h4⟩
  · have hmv : moveRegion l rid MoveDirection.down
        = some (jsSortByOrder (swapOrders l i (i + 1))) := by
      simp only [moveRegion, hfind]
      rw [if_pos hd]
    obtain ⟨h1, h2, h3, h4⟩ := main i hd
    exact ⟨_, i, hmv, hd, Or.inl rfl, h1, h2, h3, h4⟩

/-- Witness for C1: moving the middle region of a three-element list up. -/
theorem moveRegion_success_swaps_witness :
    ∃ R a, moveRegion [regA1, regB2, regC3] "b" MoveDirection.up = some R ∧
      a + 1 < ([regA1, regB2, regC3] : List TextRegion).length ∧
      (1 = a ∨ 1 = a + 1) ∧
      R.Perm (swapOrders [regA1, regB2, regC3] a (a + 1)) ∧
      (swapOrders [regA1, regB2, regC3] a (a + 1)).map eraseOrder
          = ([regA1, regB2, regC3] : List TextRegion).map eraseOrder ∧
      (R.map TextRegion.order).Perm
          (([regA1, regB2, regC3] : List TextRegion).map TextRegion.order) ∧
      (R.map TextRegion.id).Perm
          (([regA1, regB2, regC3] : List TextRegion).map TextRegion.id) :=
  moveRegion_success_swaps [regA1, regB2, regC3] "b" MoveDirection.up 1
    (by decide) (Or.inl ⟨rfl, by decide⟩)

/-- Claim C4 (amended): on a list sorted by order (the invariant the app
maintains), `moveRegion` returns the list unchanged when the id is absent
and the direction is up, when the target is first and the direction is up,
and when the target is last and the direction is down; but when the id is
absent, the direction is down and the list is non-empty, the source
crashes on `newArr[-1].order` (modelled `none`) instead of performing the
no-op the claim states for every absent id. -/
theorem moveRegion_noop_cases (l : List TextRegion) (rid : String)
    (hs : List.Sorted regLE l) :
    (l.findIdx? (fun r => r.id == rid) = none →
        moveRegion l rid MoveDirection.up = some l) ∧
    (l.findIdx? (fun r => r.id == rid) = none → l ≠ [] →
        moveRegion l rid MoveDirection.down = none) ∧
    (l.findIdx? (fun r => r.id == rid) = some 0 →
        moveRegion l rid MoveDirection.up = some l) ∧
    (l ≠ [] → l.findIdx? (fun r => r.id == rid) = some (l.length - 1) →
        moveRegion l rid MoveDirection.down = some l) := by
  have hsort : jsSortByOrder l = l := List.Sorted.insertionSort_eq hs
  refine ⟨?_, ?_, ?_, ?_⟩
  · intro h
    simp only [moveRegion, h, hsort]
  · intro h hne
    simp only [moveRegion, h]
    have hemp : l.isEmpty = false := by
      cases l with
      | nil => exact absurd rfl hne
      | cons c t => rfl
    rw [hemp]
    rfl
  · intro h
    simp only [moveRegion, h]
    rw [if_neg (lt_irrefl 0), hsort]
  · intro hne h
    simp only [moveRegion, h]
    have hpos : 0 < l.length := List.length_pos.mpr hne
    rw [if_neg (by omega), hsort]

/-- Witness for C4: a sorted two-element list with the first region as
target. -/
theorem moveRegion_noop_cases_witness :
    (([regA1, regB2] : List TextRegion).findIdx? (fun r => r.id == "a") = none →
        moveRegion [regA1, regB2] "a" MoveDirection.up = some [regA1, regB2]) ∧
    (([regA1, regB2] : List TextRegion).findIdx? (fun r => r.id == "a") = none →
        ([regA1, regB2] : List TextRegion) ≠ [] →
        moveRegion [regA1, regB2] "a" MoveDirection.down = none) ∧
    (([regA1, regB2] : List TextRegion).findIdx? (fun r => r.id == "a") = some 0 →
        moveRegion [regA1, regB2] "a" MoveDirection.up = some [regA1, regB2]) ∧
    (([regA1, regB2] : List TextRegion) ≠ [] →
        ([regA1, regB2] : List TextRegion).findIdx? (fun r => r.id == "a")
          = some (([regA1, regB2] : List TextRegion).length - 1) →
        moveRegion [regA1, regB2] "a" MoveDirection.down = some [regA1, regB2]) :=
  moveRegion_noop_cases [regA1, regB2] "a" (by decide)

/-- Claim C7 (amended): on a list strictly sorted by order (orders
pairwise distinct in list position, the invariant detection establishes
and moves preserve), moving a region whose first match is not at the head
up and then down restores the original list exactly.  With tied order
values or an unsorted list the claim fails, see the counterexample. -/
theorem moveRegion_up_down_inverse (l : List TextRegion) (rid : String) (i : Nat)
    (hs : l.Pairwise regLT)
    (hfind : l.findIdx? (fun r => r.id == rid) = some i) (hi : 0 < i) :
    Option.bind (moveRegion l rid MoveDirection.up)
        (fun m => moveRegion m rid MoveDirection.down) = some l := by
  obtain ⟨A, y, B, rfl, hlen, hA, hy⟩ := findIdx?_split hfind
  have hAne : A ≠ [] := by
    intro h
    rw [h] at hlen
    simp at hlen
    omega
  obtain ⟨A0, x, rfl⟩ : ∃ A0 x, A = A0 ++ [x] :=
    ⟨A.dropLast, A.getLast hAne, (List.dropLast_concat_getLast hAne).symm⟩
  simp only [List.append_assoc, List.cons_append, List.nil_append]
      at hfind hs hA ⊢
  obtain rfl : i = A0.length + 1 := by
    rw [List.length_append, List.length_singleton] at hlen
    omega
  have hA0 : ∀ a ∈ A0, (fun r => r.id == rid) a = false := fun a ha =>
    hA a (List.mem_append_left [x] ha)
  have hpw : ∀ m : List TextRegion,
      (m.map TextRegion.order).Pairwise (fun a b : Int => a < b) →
        m.Pairwise regLT := fun m h => (List.pairwise_map (f := TextRegion.order)).mp h
  have hpw' : ∀ m : List TextRegion,
      m.Pairwise regLT →
        (m.map TextRegion.order).Pairwise (fun a b : Int => a < b) :=
    fun m h => (List.pairwise_map (f := TextRegion.order)).mpr h
  have hmapM : (A0 ++ setOrder y x.order :: setOrder x y.order :: B).map
      TextRegion.order = (A0 ++ x :: y :: B).map TextRegion.order := by
    simp [setOrder]
  have hsM : (A0 ++ setOrder y x.order :: setOrder x y.order :: B).Pairwise
      regLT := by
    refine hpw _ ?_
    rw [hmapM]
    exact hpw' _ hs
  have hup : moveRegion (A0 ++ x :: y :: B) rid MoveDirection.up
      = some (A0 ++ setOrder y x.order :: setOrder x y.order :: B) := by
    simp only [moveRegion, hfind]
    rw [if_pos (Nat.succ_pos A0.length)]
    have hid : A0.length + 1 - 1 = A0.length := rfl
    rw [hid, swapOrders_append A0 x y B]
    rw [jsSort_eq_of_perm
      (List.Perm.append_left A0
        (List.Perm.swap (setOrder y x.order) (setOrder x y.order) B)) hsM]
  have hy' : ((setOrder y x.order).id == rid) = true := hy
  have hfind2 : (A0 ++ setOrder y x.order :: setOrder x y.order :: B).findIdx?
      (fun r => r.id == rid) = some A0.length :=
    findIdx?_prepend A0 (setOrder x y.order :: B) hA0 hy'
  have hdown : moveRegion (A0 ++ setOrder y x.order :: setOrder x y.order :: B)
      rid MoveDirection.down = some (A0 ++ x :: y :: B) := by
    simp only [moveRegion, hfind2]
    have hlt : A0.length + 1
        < (A0 ++ setOrder y x.order :: setOrder x y.order :: B).length := by
      rw [List.length_append]
      simp
    rw [if_pos hlt,
      swapOrders_append A0 (setOrder y x.order) (setOrder x y.order) B,
      setOrder_order, setOrder_order, setOrder_setOrder, setOrder_setOrder,
      setOrder_self, setOrder_self]
    rw [jsSort_eq_of_perm (List.Perm.append_left A0 (List.Perm.swap x y B)) hs]
  rw [hup]
  exact hdown

/-- Witness for C7: moving the middle region of a strictly sorted
three-element list up and then down. -/
theorem moveRegion_up_down_inverse_witness :
    Option.bind (moveRegion [regA1, regB2, regC3] "b" MoveDirection.up)
        (fun m => moveRegion m "b" MoveDirection.down)
      = some [regA1, regB2, regC3] :=
  moveRegion_up_down_inverse [regA1, regB2, regC3] "b" 1 (by decide)
    (by decide) (by decide)

end SmartLens
